import Mathlib

/-!
Verification of the IndexedDB analyzer (`src/tools/analyzers/indexeddb.py`).

The analyzer walks a snapshot of IndexedDB databases and stores, and for each
store infers a per-field schema (`_infer_schema`) and per-field cardinality
statistics (`_analyze_cardinality`).  We embed the Python value universe that
the analyzer distinguishes (None, bool, int, float, str, list, dict), its
records (Python dicts, modelled as ordered association lists with assignment
being replace-or-append), and the three functions `analyze`, `_infer_schema`
and `_analyze_cardinality`, faithfully to the source.

Python floats are carried by their textual representation: the analyzer never
computes with a float value, it only dispatches on its runtime type and
stringifies it, so the representation string is all that is ever observed.
Division that Python performs in floating point (presence percentage,
average length, cardinality ratio) is modelled over `ℚ`; the `"%.0f"` format
is modelled as round-half-to-even of the exact rational, which is Python's
tie-breaking rule.  Python `repr` of a string is modelled as the value
between single quotes, which matches Python for strings without quotes,
backslashes or control characters.
-/

namespace IndexedDBAnalyzer

/-- The universe of record values the analyzer discriminates: Python's
`None`, `bool`, `int`, `float`, `str`, `list`, `dict`.  A float carries its
`repr` string (see the module docstring). -/
inductive Value : Type where
  | vnull : Value
  | vbool : Bool → Value
  | vint : Int → Value
  | vfloat : String → Value
  | vstr : String → Value
  | vlist : List Value → Value
  | vdict : List (String × Value) → Value

/-- A Python dict with string keys, as an ordered association list.  Real
dicts have pairwise distinct keys; lookups below use first-match, which
agrees with dict lookup on such lists. -/
abbrev Record := List (String × Value)

/-- Membership test `key in r` on a Python dict. -/
def hasKey (r : Record) (k : String) : Bool :=
  r.any (fun p => p.1 == k)

/-- Lookup `r.get(key)` / `r[key]` : first-match lookup. -/
def dget (r : Record) (k : String) : Option Value :=
  (r.find? (fun p => p.1 == k)).map (fun p => p.2)

/-- Python dict assignment `d[k] = v` on the association-list model:
replace the value at an existing key in place, else append.  Used for the
result mappings that `analyze` fills. -/
def assocSet {K V : Type} [BEq K] (l : List (K × V)) (k : K) (v : V) :
    List (K × V) :=
  if l.any (fun p => p.1 == k) then
    l.map (fun p => if p.1 == k then (k, v) else p)
  else
    l ++ [(k, v)]

/-- Dict lookup (first match) for result mappings. -/
def assocLookup {K V : Type} [BEq K] (l : List (K × V)) (k : K) : Option V :=
  (l.find? (fun p => p.1 == k)).map (fun p => p.2)

mutual

/-- Python `repr` on the value universe. -/
def pyRepr : Value → String
  | .vnull => "None"
  | .vbool true => "True"
  | .vbool false => "False"
  | .vint n => toString n
  | .vfloat r => r
  | .vstr s => "\x27" ++ s ++ "\x27"
  | .vlist xs => "[" ++ String.intercalate ", " (pyReprList xs) ++ "]"
  | .vdict xvs => "\x7b" ++ String.intercalate ", " (pyReprItems xvs) ++ "\x7d"

/-- Pointwise `repr` of the elements of a list. -/
def pyReprList : List Value → List String
  | [] => []
  | v :: vs => pyRepr v :: pyReprList vs

/-- Pointwise `repr` of the `key: value` items of a dict. -/
def pyReprItems : List (String × Value) → List String
  | [] => []
  | kv :: vs =>
      ("\x27" ++ kv.1 ++ "\x27" ++ ": " ++ pyRepr kv.2) :: pyReprItems vs

end

/-- Python `str`: identity on strings, `repr` on everything else. -/
def pyStr : Value → String
  | .vstr s => s
  | v => pyRepr v

/-- Round half to even on an exact rational, the tie-breaking rule of
Python's `"%.0f"` format specifier. -/
def roundHalfEven (q : ℚ) : ℤ :=
  if q - (⌊q⌋ : ℚ) < 1/2 then ⌊q⌋
  else if (1:ℚ)/2 < q - (⌊q⌋ : ℚ) then ⌊q⌋ + 1
  else if ⌊q⌋ % 2 = 0 then ⌊q⌋ else ⌊q⌋ + 1

/-- The type-dispatch chain of `_infer_schema` (lines 46–58 of the source):
`None` → null, `bool` → boolean, `int` → number, `str` → string,
`list` → array, `dict` → object, anything else → `type(value).__name__`
(on this value universe only a float reaches the fallback, whose
`type(value).__name__` is `"float"`). -/
def inferFieldType : Value → String
  | .vnull => "null"
  | .vbool _ => "boolean"
  | .vint _ => "number"
  | .vstr _ => "string"
  | .vlist _ => "array"
  | .vdict _ => "object"
  | .vfloat _ => "float"

/-- One entry of the inferred schema.  `max_length` and `avg_length` are
optional: Python only assigns those dict keys for string-typed fields with a
non-empty length sample. -/
structure SchemaEntry where
  type : String
  presence : String
  max_length : Option Nat
  avg_length : Option ℚ

/-- The string lengths sampled by `_infer_schema` for key `key`:
`[len(str(r.get(key, ''))) for r in records if key in r]`. -/
def lengthSample (records : List Record) (key : String) : List Nat :=
  records.filterMap (fun r =>
    if hasKey r key then
      some (pyStr ((dget r key).getD (Value.vstr ""))).length
    else none)

/-- The presence percentage string of `_infer_schema`:
`f"{sum(1 for r in records if key in r)/len(records)*100:.0f}%"`. -/
def presenceStr (records : List Record) (key : String) : String :=
  toString (roundHalfEven
    (((records.filter (fun r => hasKey r key)).length : ℚ)
      / (records.length : ℚ) * 100)) ++ "%"

/-- The schema entry `_infer_schema` builds for one key/value pair of the
first record. -/
def schemaEntry (records : List Record) (key : String) (value : Value) :
    SchemaEntry :=
  if inferFieldType value == "string" && !(lengthSample records key).isEmpty then
    { type := inferFieldType value, presence := presenceStr records key,
      max_length := (lengthSample records key).max?,
      avg_length := some (((lengthSample records key).sum : ℚ)
        / ((lengthSample records key).length : ℚ)) }
  else
    { type := inferFieldType value, presence := presenceStr records key,
      max_length := none, avg_length := none }

/-- Embedding of `IndexedDBAnalyzer._infer_schema`. -/
def inferSchema (records : List Record) : List (String × SchemaEntry) :=
  match records with
  | [] => []
  | first :: _ => first.map (fun kv => (kv.1, schemaEntry records kv.1 kv.2))

/-- One entry of the cardinality analysis. -/
structure CardEntry where
  unique_values : Nat
  cardinality_ratio : ℚ

/-- The values sampled by `_analyze_cardinality` for one key:
`values = [r.get(key) for r in records if key in r]`. -/
def valueSample (records : List Record) (key : String) : List Value :=
  records.filterMap (fun r =>
    if hasKey r key then some ((dget r key).getD Value.vnull) else none)

/-- The cardinality entry `_analyze_cardinality` builds for one key of the
first record.  `set(str(v) for v in values)` is modelled as deduplication of
the string forms. -/
def cardEntry (records : List Record) (key : String) : CardEntry :=
  { unique_values := (((valueSample records key).map pyStr).dedup).length,
    cardinality_ratio :=
      ((((valueSample records key).map pyStr).dedup).length : ℚ)
        / (records.length : ℚ) }

/-- Embedding of `IndexedDBAnalyzer._analyze_cardinality`. -/
def analyzeCardinality (records : List Record) : List (String × CardEntry) :=
  match records with
  | [] => []
  | first :: _ => first.map (fun kv => (kv.1, cardEntry records kv.1))

/-- A store descriptor: the fields of the input mapping that `analyze`
reads.  Optional dict keys become `Option`. -/
structure Store where
  name : Option String
  count : Option Nat
  keyPath : Option Value
  indexes : List Value
  records : List Record

/-- A database descriptor. -/
structure Database where
  name : Option String
  version : Option Value
  stores : List Store

/-- The per-store analysis result assembled in the body of `analyze`. -/
structure StoreAnalysis where
  record_count : Nat
  key_path : Option Value
  indexes : List Value
  schema : List (String × SchemaEntry)
  cardinality : List (String × CardEntry)

/-- The per-database analysis result.  The stores mapping is keyed by
`store.get('name')`, which is `None` when the store has no name, hence
`Option String` keys. -/
structure DBAnalysis where
  version : Option Value
  stores : List (Option String × StoreAnalysis)

/-- The body of the inner loop of `analyze` for one store. -/
def analyzeStore (store : Store) : StoreAnalysis :=
  { record_count := store.count.getD store.records.length,
    key_path := store.keyPath,
    indexes := store.indexes,
    schema := inferSchema store.records,
    cardinality := analyzeCardinality store.records }

/-- The inner loop of `analyze`: build the stores mapping of one database,
keyed by `store.get('name')`. -/
def analyzeStores (stores : List Store) : List (Option String × StoreAnalysis) :=
  stores.foldl (fun acc store => assocSet acc store.name (analyzeStore store)) []

/-- Embedding of `IndexedDBAnalyzer.analyze` on the already-extracted `indexedDB` list
(the constructor reads `data.get('indexedDB', [])`).  Each database is
entered under `db.get('name', 'unknown')`; assigning `result[db_name]`
afresh and then filling its stores is equivalent to assigning the completed
per-database value. -/
def analyze (data : List Database) : List (String × DBAnalysis) :=
  data.foldl (fun result db =>
    assocSet result (db.name.getD "unknown")
      { version := db.version, stores := analyzeStores db.stores }) []

end IndexedDBAnalyzer

namespace IndexedDBAnalyzer

/-! ### Helper lemmas about the association-list model -/

theorem assocLookup_map_entry {β : Type} (f : String → Value → β)
    (l : Record) (k : String) :
    assocLookup (l.map (fun kv => (kv.1, f kv.1 kv.2))) k
      = (l.find? (fun p => p.1 == k)).map (fun p => f p.1 p.2) := by
  induction l with
  | nil => rfl
  | cons p l ih =>
    by_cases h : p.1 == k
    · simp [assocLookup, List.find?_cons, h]
    · simpa [assocLookup, List.find?_cons, h] using ih

theorem dget_eq_some_iff {l : Record} {k : String} {v : Value} :
    dget l k = some v ↔ ∃ p, l.find? (fun q => q.1 == k) = some p ∧ p.2 = v := by
  simp [dget, Option.map_eq_some']

theorem hasKey_iff_isSome {l : Record} {k : String} :
    hasKey l k = true ↔ (dget l k).isSome := by
  simp [hasKey, dget, List.any_eq_true, List.find?_isSome]

theorem assocLookup_inferSchema {first : Record} (rest : List Record)
    {k : String} {v : Value} (h : dget first k = some v) :
    assocLookup (inferSchema (first :: rest)) k
      = some (schemaEntry (first :: rest) k v) := by
  obtain ⟨p, hp, hv⟩ := dget_eq_some_iff.mp h
  have hbeq := List.find?_some hp
  have hk : p.1 = k := eq_of_beq hbeq
  simp only [inferSchema]
  rw [assocLookup_map_entry, hp]
  simp [hk, hv]

theorem assocLookup_analyzeCardinality {first : Record} (rest : List Record)
    {k : String} (h : hasKey first k = true) :
    assocLookup (analyzeCardinality (first :: rest)) k
      = some (cardEntry (first :: rest) k) := by
  have hs : (dget first k).isSome := hasKey_iff_isSome.mp h
  obtain ⟨v, hv⟩ := Option.isSome_iff_exists.mp hs
  obtain ⟨p, hp, _⟩ := dget_eq_some_iff.mp hv
  have hbeq := List.find?_some hp
  have hk : p.1 = k := eq_of_beq hbeq
  simp only [analyzeCardinality]
  have h2 := assocLookup_map_entry (fun a _ => cardEntry (first :: rest) a) first k
  simp only [] at h2
  rw [h2, hp]
  simp [hk]

theorem schemaEntry_type (records : List Record) (k : String) (v : Value) :
    (schemaEntry records k v).type = inferFieldType v := by
  unfold schemaEntry
  split <;> rfl

theorem schemaEntry_presence (records : List Record) (k : String) (v : Value) :
    (schemaEntry records k v).presence = presenceStr records k := by
  unfold schemaEntry
  split <;> rfl

end IndexedDBAnalyzer

namespace IndexedDBAnalyzer

theorem roundHalfEven_bounds {q : ℚ} (h0 : 0 ≤ q) (h1 : q ≤ 100) :
    0 ≤ roundHalfEven q ∧ roundHalfEven q ≤ 100 := by
  have hfl : ((⌊q⌋ : ℤ) : ℚ) ≤ q := Int.floor_le q
  have hfl0 : 0 ≤ ⌊q⌋ := Int.le_floor.mpr (by exact_mod_cast h0)
  have hfl100 : ⌊q⌋ ≤ 100 := by
    by_contra hc
    push_neg at hc
    have : (101 : ℚ) ≤ (⌊q⌋ : ℚ) := by exact_mod_cast hc
    linarith
  have hup : ∀ hhalf : (1:ℚ)/2 ≤ q - (⌊q⌋ : ℚ), ⌊q⌋ + 1 ≤ 100 := by
    intro hhalf
    by_contra hgt
    push_neg at hgt
    have hq : ⌊q⌋ = 100 := by omega
    rw [hq] at hhalf
    push_cast at hhalf
    linarith
  unfold roundHalfEven
  split_ifs with ha hb hc
  · exact ⟨hfl0, hfl100⟩
  · exact ⟨by omega, hup (le_of_lt hb)⟩
  · exact ⟨hfl0, hfl100⟩
  · exact ⟨by omega, hup (le_of_not_lt ha)⟩

end IndexedDBAnalyzer

namespace IndexedDBAnalyzer

/-- Claim C1: the claim asserts a first-record float value is classified as
`"number"`.  The code's chain tests `isinstance(value, int)`, which a Python
float does not satisfy, so a float falls through to the
`type(value).__name__` fallback and is classified `"float"`. -/
theorem C1_counterexample :
    ¬ ((assocLookup (inferSchema [[("x", Value.vfloat "2.5")]]) "x").map
        SchemaEntry.type = some "number") := by
  rw [assocLookup_inferSchema []
    (show dget [("x", Value.vfloat "2.5")] "x" = some (Value.vfloat "2.5")
      from rfl), Option.map_some', schemaEntry_type]
  decide

/-- Claim C1 (amended): for every non-empty record list the schema type of each
field `k` of the first record is determined from the first record's value by
the fixed precedence null → "null", boolean → "boolean", integer → "number",
string → "string", array-like → "array", object-like → "object", anything
else (here: a float) → the runtime's own type name; in particular a
first-record float value is classified as "float", not "number". -/
theorem C1_amended (first : Record) (rest : List Record) (k : String)
    (v : Value) (h : dget first k = some v) :
    (assocLookup (inferSchema (first :: rest)) k).map SchemaEntry.type
      = some (match v with
        | .vnull => "null"
        | .vbool _ => "boolean"
        | .vint _ => "number"
        | .vstr _ => "string"
        | .vlist _ => "array"
        | .vdict _ => "object"
        | .vfloat _ => "float") := by
  rw [assocLookup_inferSchema rest h, Option.map_some', schemaEntry_type]
  cases v <;> rfl

/-- Witness for C1: the amended theorem instantiated at a concrete one-record store holding a
float field. -/
theorem C1_witness :
    dget [("x", Value.vfloat "2.5")] "x" = some (Value.vfloat "2.5") ∧
    (assocLookup (inferSchema [[("x", Value.vfloat "2.5")]]) "x").map
        SchemaEntry.type = some "float" :=
  ⟨rfl, C1_amended [("x", Value.vfloat "2.5")] [] "x" (Value.vfloat "2.5") rfl⟩

end IndexedDBAnalyzer

namespace IndexedDBAnalyzer

theorem assocLookup_map_key {β : Type} (f : String → β) (l : Record)
    (k : String) :
    assocLookup (l.map (fun kv => (kv.1, f kv.1))) k
      = (l.find? (fun p => p.1 == k)).map (fun p => f p.1) := by
  induction l with
  | nil => rfl
  | cons p l ih =>
    by_cases h : p.1 == k
    · simp [assocLookup, List.find?_cons, h]
    · simpa [assocLookup, List.find?_cons, h] using ih

theorem find?_map_replace {K V : Type} [BEq K] [LawfulBEq K]
    (l : List (K × V)) (k : K) (v : V)
    (h : l.any (fun p => p.1 == k) = true) :
    (l.map (fun p => if p.1 == k then (k, v) else p)).find?
        (fun p => p.1 == k) = some (k, v) := by
  induction l with
  | nil => simp at h
  | cons p l ih =>
    by_cases hp : (p.1 == k) = true
    · simp [hp, List.find?_cons]
    · have hl : l.any (fun p => p.1 == k) = true := by
        simpa [List.any_cons, hp] using h
      simp [hp, List.find?_cons, ih hl]

theorem assocLookup_assocSet_self {K V : Type} [BEq K] [LawfulBEq K]
    (l : List (K × V)) (k : K) (v : V) :
    assocLookup (assocSet l k v) k = some v := by
  unfold assocSet
  cases hany : l.any (fun p => p.1 == k) with
  | true =>
    simp only [hany, if_true]
    simp [assocLookup, find?_map_replace l k v hany]
  | false =>
    have hnone : l.find? (fun p => p.1 == k) = none := by
      rw [List.find?_eq_none]
      intro x hx
      exact (List.any_eq_false.mp hany x hx)
    simp [assocLookup, List.find?_append, hnone]

theorem assocSet_keys {K V : Type} [BEq K] [LawfulBEq K]
    (l : List (K × V)) (k : K) (v : V) :
    (assocSet l k v).map Prod.fst
      = if l.any (fun p => p.1 == k) then l.map Prod.fst
        else l.map Prod.fst ++ [k] := by
  unfold assocSet
  split
  · rw [List.map_map]
    apply List.map_congr_left
    intro p _
    by_cases hp : (p.1 == k) = true
    · simp [Function.comp, hp, (eq_of_beq hp).symm]
    · simp [Function.comp, hp]
  · simp

theorem mem_keys_assocSet {K V : Type} [BEq K] [LawfulBEq K]
    (l : List (K × V)) (k0 k : K) (v : V) :
    k ∈ (assocSet l k0 v).map Prod.fst ↔ k ∈ l.map Prod.fst ∨ k = k0 := by
  rw [assocSet_keys]
  split
  · rename_i hany
    constructor
    · exact Or.inl
    · rintro (hk | rfl)
      · exact hk
      · obtain ⟨p, hp, hpk⟩ := List.any_eq_true.mp hany
        have : p.1 = k := eq_of_beq hpk
        exact List.mem_map.mpr ⟨p, hp, this⟩
  · simp [List.mem_append]

theorem nodup_keys_assocSet {K V : Type} [BEq K] [LawfulBEq K]
    {l : List (K × V)} (k : K) (v : V)
    (h : (l.map Prod.fst).Nodup) :
    ((assocSet l k v).map Prod.fst).Nodup := by
  rw [assocSet_keys]
  split
  · exact h
  · rename_i hany
    have hk : k ∉ l.map Prod.fst := by
      intro hmem
      obtain ⟨p, hp, hpk⟩ := List.mem_map.mp hmem
      have hfalse := List.any_eq_false.mp (Bool.of_not_eq_true hany) p hp
      subst hpk
      exact hfalse (beq_self_eq_true p.1)
    simp [List.nodup_append, h, hk]

end IndexedDBAnalyzer

namespace IndexedDBAnalyzer

theorem valueSample_ne_nil {first : Record} (rest : List Record) {k : String}
    (h : hasKey first k = true) :
    valueSample (first :: rest) k ≠ [] := by
  unfold valueSample
  rw [List.filterMap_cons]
  simp [h]

theorem lengthSample_ne_nil {first : Record} (rest : List Record) {k : String}
    (h : hasKey first k = true) :
    lengthSample (first :: rest) k ≠ [] := by
  unfold lengthSample
  rw [List.filterMap_cons]
  simp [h]

/-- Claim C2: for each field of the first record, the distinct count is the number
of distinct canonical string forms of the values taken from exactly the
records containing the field (so `1` and `"1"` coincide), and the ratio
divides by the length of the full record list. -/
theorem C2 (first : Record) (rest : List Record) (k : String)
    (h : hasKey first k = true) :
    ∃ e, assocLookup (analyzeCardinality (first :: rest)) k = some e ∧
      e.unique_values =
        (((first :: rest).filterMap (fun r =>
          if hasKey r k then some (pyStr ((dget r k).getD Value.vnull))
          else none)).toFinset).card ∧
      e.cardinality_ratio
        = (e.unique_values : ℚ) / (((first :: rest).length : ℚ)) := by
  refine ⟨_, assocLookup_analyzeCardinality rest h, ?_, rfl⟩
  show (((valueSample (first :: rest) k).map pyStr).dedup).length = _
  rw [List.card_toFinset]
  congr 1
  unfold valueSample
  rw [List.map_filterMap]
  simp only [apply_ite (Option.map pyStr), Option.map_some', Option.map_none']

/-- Witness for C2: the theorem instantiated at a two-record store where the first record holds the
number `1` and the second the string `"1"`. -/
theorem C2_witness :
    hasKey [("v", Value.vint 1)] "v" = true ∧
    (∃ e, assocLookup
        (analyzeCardinality [[("v", Value.vint 1)], [("v", Value.vstr "1")]])
        "v" = some e ∧
      e.unique_values =
        ((([[("v", Value.vint 1)], [("v", Value.vstr "1")]]
            : List Record).filterMap (fun r =>
          if hasKey r "v" then some (pyStr ((dget r "v").getD Value.vnull))
          else none)).toFinset).card ∧
      e.cardinality_ratio = (e.unique_values : ℚ)
        / ((([[("v", Value.vint 1)], [("v", Value.vstr "1")]]
            : List Record).length : ℚ))) :=
  ⟨rfl, C2 [("v", Value.vint 1)] [[("v", Value.vstr "1")]] "v" rfl⟩

end IndexedDBAnalyzer

namespace IndexedDBAnalyzer

/-- Claim C3: for each field of the first record, the presence value is the count
of records containing the field divided by the total record count, times
100, rounded to the nearest integer (ties to even, as Python's `%.0f`
format), lies in [0,100], and is rendered as `"<n>%"`. -/
theorem C3 (first : Record) (rest : List Record) (k : String) (v : Value)
    (h : dget first k = some v) :
    ∃ e n, assocLookup (inferSchema (first :: rest)) k = some e ∧
      n = roundHalfEven
        ((((first :: rest).filter (fun r => hasKey r k)).length : ℚ)
          / (((first :: rest).length : ℚ)) * 100) ∧
      e.presence = toString n ++ "%" ∧ 0 ≤ n ∧ n ≤ 100 := by
  have hcnt : ((first :: rest).filter (fun r => hasKey r k)).length
      ≤ (first :: rest).length := List.length_filter_le _ _
  have hlen : (0:ℚ) < (((first :: rest).length : ℚ)) := by
    exact_mod_cast List.length_pos.mpr (List.cons_ne_nil first rest)
  have h0 : (0:ℚ) ≤ (((first :: rest).filter (fun r => hasKey r k)).length : ℚ)
      / (((first :: rest).length : ℚ)) * 100 := by positivity
  have h1 : (((first :: rest).filter (fun r => hasKey r k)).length : ℚ)
      / (((first :: rest).length : ℚ)) * 100 ≤ 100 := by
    have hdiv : (((first :: rest).filter (fun r => hasKey r k)).length : ℚ)
        / (((first :: rest).length : ℚ)) ≤ 1 :=
      (div_le_one hlen).mpr (by exact_mod_cast hcnt)
    nlinarith
  obtain ⟨hb0, hb1⟩ := roundHalfEven_bounds h0 h1
  exact ⟨_, _, assocLookup_inferSchema rest h, rfl,
    by rw [schemaEntry_presence]; rfl, hb0, hb1⟩

/-- Witness for C3: the theorem instantiated at a four-record store in which the field is present in
three of the records. -/
theorem C3_witness :
    dget [("id", Value.vint 1)] "id" = some (Value.vint 1) ∧
    (∃ e n, assocLookup (inferSchema
        [[("id", Value.vint 1)], [("id", Value.vint 2)], [], [("id", Value.vint 3)]])
        "id" = some e ∧
      n = roundHalfEven
        (((([[("id", Value.vint 1)], [("id", Value.vint 2)], [],
            [("id", Value.vint 3)]] : List Record).filter
              (fun r => hasKey r "id")).length : ℚ)
          / ((([[("id", Value.vint 1)], [("id", Value.vint 2)], [],
            [("id", Value.vint 3)]] : List Record).length : ℚ)) * 100) ∧
      e.presence = toString n ++ "%" ∧ 0 ≤ n ∧ n ≤ 100) :=
  ⟨rfl, C3 [("id", Value.vint 1)]
    [[("id", Value.vint 2)], [], [("id", Value.vint 3)]] "id"
    (Value.vint 1) rfl⟩

/-- Claim C5: a first-record boolean field is typed `"boolean"`, never `"number"`:
the `isinstance(value, bool)` test precedes the `isinstance(value, int)`
test (Python booleans are also ints). -/
theorem C5 (first : Record) (rest : List Record) (k : String) (b : Bool)
    (h : dget first k = some (Value.vbool b)) :
    (assocLookup (inferSchema (first :: rest)) k).map SchemaEntry.type
        = some "boolean" ∧
    ¬ ((assocLookup (inferSchema (first :: rest)) k).map SchemaEntry.type
        = some "number") := by
  rw [assocLookup_inferSchema rest h, Option.map_some', schemaEntry_type]
  exact ⟨rfl, by simp [inferFieldType]⟩

/-- Witness for C5: the theorem instantiated at a one-record store with a boolean `true` field. -/
theorem C5_witness :
    dget [("flag", Value.vbool true)] "flag" = some (Value.vbool true) ∧
    ((assocLookup (inferSchema [[("flag", Value.vbool true)]]) "flag").map
        SchemaEntry.type = some "boolean" ∧
    ¬ ((assocLookup (inferSchema [[("flag", Value.vbool true)]]) "flag").map
        SchemaEntry.type = some "number")) :=
  ⟨rfl, C5 [("flag", Value.vbool true)] [] "flag" true rfl⟩

/-- Claim C10: for each field of the first record the distinct count is at least 1
and the cardinality ratio lies in (0, 1]. -/
theorem C10 (first : Record) (rest : List Record) (k : String)
    (h : hasKey first k = true) :
    ∃ e, assocLookup (analyzeCardinality (first :: rest)) k = some e ∧
      1 ≤ e.unique_values ∧ 0 < e.cardinality_ratio ∧
      e.cardinality_ratio ≤ 1 := by
  have hvs := valueSample_ne_nil rest h
  have hdedupne : ((valueSample (first :: rest) k).map pyStr).dedup ≠ [] := by
    rw [ne_eq, List.dedup_eq_nil]
    simpa using hvs
  have h1 : 1 ≤ (((valueSample (first :: rest) k).map pyStr).dedup).length :=
    List.length_pos.mpr hdedupne
  have hle : (((valueSample (first :: rest) k).map pyStr).dedup).length
      ≤ (first :: rest).length := by
    calc (((valueSample (first :: rest) k).map pyStr).dedup).length
        ≤ ((valueSample (first :: rest) k).map pyStr).length :=
          (List.dedup_sublist _).length_le
      _ = (valueSample (first :: rest) k).length := List.length_map _ _
      _ ≤ (first :: rest).length := List.length_filterMap_le _ _
  have hlen : (0:ℚ) < (((first :: rest).length : ℚ)) := by
    exact_mod_cast List.length_pos.mpr (List.cons_ne_nil first rest)
  refine ⟨_, assocLookup_analyzeCardinality rest h, h1, ?_, ?_⟩
  · show (0:ℚ)
      < ((((valueSample (first :: rest) k).map pyStr).dedup).length : ℚ)
        / (((first :: rest).length : ℚ))
    exact div_pos (by exact_mod_cast h1) hlen
  · show ((((valueSample (first :: rest) k).map pyStr).dedup).length : ℚ)
        / (((first :: rest).length : ℚ)) ≤ 1
    rw [div_le_one hlen]
    exact_mod_cast hle

/-- Witness for C10: the theorem instantiated at a two-record store with a sparse field. -/
theorem C10_witness :
    hasKey [("a", Value.vint 7)] "a" = true ∧
    (∃ e, assocLookup (analyzeCardinality [[("a", Value.vint 7)], []]) "a"
        = some e ∧
      1 ≤ e.unique_values ∧ 0 < e.cardinality_ratio ∧
      e.cardinality_ratio ≤ 1) :=
  ⟨rfl, C10 [("a", Value.vint 7)] [[]] "a" rfl⟩

end IndexedDBAnalyzer

namespace IndexedDBAnalyzer

/-- Claim C4: both output mappings are keyed exactly by the first record's keys
(in order); a key is present in either output exactly when the first record
contains it, so fields appearing only in later records are invisible. -/
theorem C4 (records : List Record) (k : String) :
    (inferSchema records).map Prod.fst = (records.headD []).map Prod.fst ∧
    (analyzeCardinality records).map Prod.fst
      = (records.headD []).map Prod.fst ∧
    (assocLookup (inferSchema records) k).isSome
      = hasKey (records.headD []) k ∧
    (assocLookup (analyzeCardinality records) k).isSome
      = hasKey (records.headD []) k := by
  cases records with
  | nil => simp [inferSchema, analyzeCardinality, assocLookup, hasKey]
  | cons first rest =>
    refine ⟨?_, ?_, ?_, ?_⟩
    · show (first.map (fun kv => (kv.1, schemaEntry (first :: rest) kv.1 kv.2))).map
          Prod.fst = first.map Prod.fst
      rw [List.map_map]
      rfl
    · show (first.map (fun kv => (kv.1, cardEntry (first :: rest) kv.1))).map
          Prod.fst = first.map Prod.fst
      rw [List.map_map]
      rfl
    · show (assocLookup (first.map
          (fun kv => (kv.1, schemaEntry (first :: rest) kv.1 kv.2))) k).isSome
          = hasKey first k
      rw [assocLookup_map_entry (schemaEntry (first :: rest)), Option.isSome_map']
      rw [Bool.eq_iff_iff, List.find?_isSome]
      simp [hasKey, List.any_eq_true]
    · show (assocLookup (first.map
          (fun kv => (kv.1, cardEntry (first :: rest) kv.1))) k).isSome
          = hasKey first k
      have h2 := assocLookup_map_key (cardEntry (first :: rest)) first k
      rw [h2, Option.isSome_map']
      rw [Bool.eq_iff_iff, List.find?_isSome]
      simp [hasKey, List.any_eq_true]

/-- Claim C6: for a first-record string field, `max_length` is the maximum and
`avg_length` the arithmetic mean of the lengths of the stringified values of
the field over exactly the records containing it. -/
theorem C6 (first : Record) (rest : List Record) (k : String) (s : String)
    (h : dget first k = some (Value.vstr s)) :
    ∃ e, assocLookup (inferSchema (first :: rest)) k = some e ∧
      (∃ M, e.max_length = some M ∧ M ∈ lengthSample (first :: rest) k ∧
        ∀ x ∈ lengthSample (first :: rest) k, x ≤ M) ∧
      e.avg_length = some (((lengthSample (first :: rest) k).sum : ℚ)
        / ((lengthSample (first :: rest) k).length : ℚ)) := by
  have hk : hasKey first k = true := by
    rw [hasKey_iff_isSome, h]
    rfl
  have hne := lengthSample_ne_nil rest hk
  have hcond : (inferFieldType (Value.vstr s) == "string"
      && !(lengthSample (first :: rest) k).isEmpty) = true := by
    simp [inferFieldType, hne]
  have hentry : schemaEntry (first :: rest) k (Value.vstr s)
      = { type := inferFieldType (Value.vstr s),
          presence := presenceStr (first :: rest) k,
          max_length := (lengthSample (first :: rest) k).max?,
          avg_length := some (((lengthSample (first :: rest) k).sum : ℚ)
            / ((lengthSample (first :: rest) k).length : ℚ)) } := by
    unfold schemaEntry
    rw [if_pos hcond]
  refine ⟨_, assocLookup_inferSchema rest h, ?_, ?_⟩
  · rw [hentry]
    have hsome : (lengthSample (first :: rest) k).max?.isSome := by
      rw [Option.isSome_iff_ne_none]
      intro hnone
      exact hne (List.max?_eq_none_iff.mp hnone)
    obtain ⟨M, hM⟩ := Option.isSome_iff_exists.mp hsome
    obtain ⟨hmem, hub⟩ := List.max?_eq_some_iff'.mp hM
    exact ⟨M, hM, hmem, hub⟩
  · rw [hentry]

/-- Witness for C6: the theorem instantiated at a two-record store whose string field is a string in
the first record and a number (stringified for lengths) in the second. -/
theorem C6_witness :
    dget [("name", Value.vstr "ann")] "name" = some (Value.vstr "ann") ∧
    (∃ e, assocLookup (inferSchema
        [[("name", Value.vstr "ann")], [("name", Value.vint 12345)]])
        "name" = some e ∧
      (∃ M, e.max_length = some M ∧
        M ∈ lengthSample [[("name", Value.vstr "ann")],
          [("name", Value.vint 12345)]] "name" ∧
        ∀ x ∈ lengthSample [[("name", Value.vstr "ann")],
          [("name", Value.vint 12345)]] "name", x ≤ M) ∧
      e.avg_length = some (((lengthSample [[("name", Value.vstr "ann")],
          [("name", Value.vint 12345)]] "name").sum : ℚ)
        / ((lengthSample [[("name", Value.vstr "ann")],
          [("name", Value.vint 12345)]] "name").length : ℚ))) :=
  ⟨rfl, C6 [("name", Value.vstr "ann")] [[("name", Value.vint 12345)]]
    "name" "ann" rfl⟩

/-- Claim C7: a store with an empty record list yields empty schema and
cardinality mappings, and its record count is the declared count when
present and 0 otherwise. -/
theorem C7 (store : Store) (h : store.records = []) :
    (analyzeStore store).schema = [] ∧
    (analyzeStore store).cardinality = [] ∧
    (analyzeStore store).record_count = store.count.getD 0 := by
  unfold analyzeStore
  rw [h]
  exact ⟨rfl, rfl, rfl⟩

/-- Witness for C7: the theorem instantiated at an empty store carrying a declared count of 7. -/
theorem C7_witness :
    (⟨some "s", some 7, none, [], []⟩ : Store).records = [] ∧
    ((analyzeStore ⟨some "s", some 7, none, [], []⟩).schema = [] ∧
      (analyzeStore ⟨some "s", some 7, none, [], []⟩).cardinality = [] ∧
      (analyzeStore ⟨some "s", some 7, none, [], []⟩).record_count
        = (⟨some "s", some 7, none, [], []⟩ : Store).count.getD 0) :=
  ⟨rfl, C7 ⟨some "s", some 7, none, [], []⟩ rfl⟩

end IndexedDBAnalyzer

namespace IndexedDBAnalyzer

theorem mem_keys_analyzeStores_aux (stores : List Store)
    (acc : List (Option String × StoreAnalysis)) (k : Option String) :
    k ∈ (stores.foldl (fun acc store =>
        assocSet acc store.name (analyzeStore store)) acc).map Prod.fst
      ↔ k ∈ acc.map Prod.fst ∨ k ∈ stores.map Store.name := by
  induction stores generalizing acc with
  | nil => simp
  | cons s ss ih =>
    rw [List.foldl_cons, ih, mem_keys_assocSet]
    simp only [List.map_cons, List.mem_cons]
    tauto

/-- Claim C8: a database with no `name` is filed under the literal key
`"unknown"`, while a store with no `name` is keyed by the absent value
itself (`None`), with no default substituted. -/
theorem C8 (db : Database) (store : Store) (h1 : db.name = none)
    (h2 : store.name = none) (h3 : store ∈ db.stores) :
    (analyze [db]).map Prod.fst = ["unknown"] ∧
    ∃ a, assocLookup (analyze [db]) "unknown" = some a ∧
      (none : Option String) ∈ a.stores.map Prod.fst := by
  have hana : analyze [db]
      = [("unknown", ⟨db.version, analyzeStores db.stores⟩)] := by
    unfold analyze
    rw [List.foldl_cons, List.foldl_nil, h1]
    rfl
  refine ⟨by rw [hana]; rfl, ⟨db.version, analyzeStores db.stores⟩, ?_, ?_⟩
  · rw [hana]
    rfl
  · show (none : Option String) ∈ (analyzeStores db.stores).map Prod.fst
    unfold analyzeStores
    rw [mem_keys_analyzeStores_aux]
    exact Or.inr (h2 ▸ List.mem_map_of_mem Store.name h3)

/-- Witness for C8: the theorem instantiated at a snapshot holding one nameless database with one
nameless store. -/
theorem C8_witness :
    (⟨none, none, [⟨none, none, none, [], []⟩]⟩ : Database).name = none ∧
    (⟨none, none, none, [], []⟩ : Store).name = none ∧
    (⟨none, none, none, [], []⟩ : Store)
      ∈ (⟨none, none, [⟨none, none, none, [], []⟩]⟩ : Database).stores ∧
    ((analyze [⟨none, none, [⟨none, none, none, [], []⟩]⟩]).map Prod.fst
        = ["unknown"] ∧
      ∃ a, assocLookup (analyze [⟨none, none, [⟨none, none, none, [], []⟩]⟩])
          "unknown" = some a ∧
        (none : Option String) ∈ a.stores.map Prod.fst) :=
  ⟨rfl, rfl, by simp,
    C8 ⟨none, none, [⟨none, none, none, [], []⟩]⟩ ⟨none, none, none, [], []⟩
      rfl rfl (by simp)⟩

theorem nodup_keys_foldl_assocSet {K V B : Type} [BEq K] [LawfulBEq K]
    (key : B → K) (val : B → V) (data : List B)
    (acc : List (K × V)) (h : (acc.map Prod.fst).Nodup) :
    ((data.foldl (fun r b => assocSet r (key b) (val b)) acc).map
        Prod.fst).Nodup := by
  induction data generalizing acc with
  | nil => simpa using h
  | cons d ds ih => exact ih _ (nodup_keys_assocSet _ _ h)

/-- Claim C9: the output mappings have dict semantics: re-assigning an existing
database name (or store name) silently replaces the earlier entry, so the
entry found for a name is always the one derived from the last database
(store) carrying that name, and each name occurs at most once among the
result's keys. -/
theorem C9 (data : List Database) (db : Database) (stores : List Store)
    (s : Store) :
    assocLookup (analyze (data ++ [db])) (db.name.getD "unknown")
      = some ⟨db.version, analyzeStores db.stores⟩ ∧
    assocLookup (analyzeStores (stores ++ [s])) s.name
      = some (analyzeStore s) ∧
    ((analyze data).map Prod.fst).Nodup := by
  refine ⟨?_, ?_, ?_⟩
  · unfold analyze
    rw [List.foldl_append, List.foldl_cons, List.foldl_nil]
    exact assocLookup_assocSet_self _ _ _
  · unfold analyzeStores
    rw [List.foldl_append, List.foldl_cons, List.foldl_nil]
    exact assocLookup_assocSet_self _ _ _
  · unfold analyze
    exact nodup_keys_foldl_assocSet (fun db => db.name.getD "unknown")
      (fun db => ({ version := db.version, stores := analyzeStores db.stores }
        : DBAnalysis)) data [] (by simp)

end IndexedDBAnalyzer
